import Mathlib

/-
Verification of the task-tracking service core: the domain record, the
in-memory storage backend (internal/adapters/storage/memory/task_repository.go),
the task service with its status-transition state machine
(internal/core/services), and the HTTP handler's error mapping
(internal/adapters/http/task_handler.go).

Go pointers (the repository stores and returns pointers to Task records, and
copies records with a struct dereference) are modelled by an explicit heap of
cells: a cell address paired with the Task value it currently holds.  Each
call to the ambient clock is modelled as reading the next value of an
arbitrary clock function, indexed by a per-world call counter.  The UUID
generator is modelled as an injective enumeration of strings driven by a
per-world counter: only freshness and distinctness of the generated
identifiers matter to the code.
-/

set_option maxHeartbeats 1000000

namespace TaskTrack

/-- Modelled from the spec: the domain package (internal.core.domain) is not
part of the available source tree; per spec section 3 and the JSON surface the
task record has an id, title, description, a status string, created/updated
timestamps and a due date.  Timestamps are modelled as abstract instants
(naturals). -/
structure Task where
  id : String
  title : String
  description : String
  status : String
  createdAt : Nat
  updatedAt : Nat
  dueDate : Nat
deriving Repr, DecidableEq

/-- Modelled from the spec: the status constant StatusPending of the absent
domain package; the enumerated JSON value is the string pending. -/
def statusPending : String := "pending"

/-- Modelled from the spec: the status constant StatusInProgress. -/
def statusInProgress : String := "in_progress"

/-- Modelled from the spec: the status constant StatusCompleted. -/
def statusCompleted : String := "completed"

/-- The three enumerated status values of spec section 4.2. -/
def specStatuses : List String := [statusPending, statusInProgress, statusCompleted]

/-- Errors of the service and storage layer: NotFoundError (pkg/errors),
InvalidStatusError (internal/core/services), and a fault marker modelling a
nil-pointer dereference panic (unreachable for valid pointers). -/
inductive Err where
  | notFound (msg : String)
  | invalidStatus (msg : String)
  | fault
deriving Repr, DecidableEq

deriving instance DecidableEq for Except

/-- Heap cell addresses. -/
abbrev Ptr := Nat

/-- Association-list lookup (first entry with the given key). -/
def alookup {α β : Type} [DecidableEq α] : List (α × β) → α → Option β
  | [], _ => none
  | (k, v) :: rest, a => if k = a then some v else alookup rest a

/-- Association-list insert-or-replace, modelling Go map assignment: replace
the entry if the key is present, otherwise append a new entry. -/
def aupdate {α β : Type} [DecidableEq α] : List (α × β) → α → β → List (α × β)
  | [], k, v => [(k, v)]
  | (k', v') :: rest, k, v =>
      if k' = k then (k, v) :: rest else (k', v') :: aupdate rest k v

/-- Association-list erase, modelling Go map delete. -/
def aerase {α β : Type} [DecidableEq α] : List (α × β) → α → List (α × β)
  | [], _ => []
  | (k', v') :: rest, k => if k' = k then rest else (k', v') :: aerase rest k

/-- The mutable world: the heap of Task cells with its allocation bound, the
repository map from identifier to the pointer it stores, the UUID-generator
counter, and the clock-call counter. -/
structure World where
  heapCells : List (Ptr × Task)
  nextPtr : Ptr
  repoTasks : List (String × Ptr)
  nextUuid : Nat
  nowIdx : Nat
deriving Repr, DecidableEq

/-- A fresh world: empty heap, empty repository (NewTaskRepository), counters
at zero. -/
def World.empty : World := ⟨[], 0, [], 0, 0⟩

/-- Allocate a fresh cell holding the given task value; returns its address. -/
def World.allocCell (w : World) (t : Task) : Ptr × World :=
  (w.nextPtr,
   { w with heapCells := aupdate w.heapCells w.nextPtr t, nextPtr := w.nextPtr + 1 })

/-- Dereference a pointer. -/
def World.readCell (w : World) (p : Ptr) : Option Task := alookup w.heapCells p

/-- Overwrite the cell at an address. -/
def World.writeCell (w : World) (p : Ptr) (t : Task) : World :=
  { w with heapCells := aupdate w.heapCells p t }

/-- Update a cell in place with a field modification (a Go assignment through
a pointer); a no-op on an unallocated address, which never arises on the
paths below because the cell was dereferenced before. -/
def World.modifyCell (w : World) (p : Ptr) (f : Task → Task) : World :=
  match w.readCell p with
  | none => w
  | some t => w.writeCell p (f t)

/-- One call of the ambient clock: read the next value of the clock function
and advance the call counter. -/
def World.timeNow (clock : Nat → Nat) (w : World) : Nat × World :=
  (clock w.nowIdx, { w with nowIdx := w.nowIdx + 1 })

/-- The string returned by the n-th call of the UUID generator.  The
generator is external and random; all the code relies on is that distinct
calls return distinct strings, so it is modelled as an injective enumeration
of strings. -/
def uuidString (n : Nat) : String := String.mk (List.replicate n 'u')

/-- The value a repository identifier maps to, read through its stored
pointer: the observable stored record for that identifier. -/
def storedValue (w : World) (id : String) : Option Task :=
  (alookup w.repoTasks id).bind w.readCell

/-- TaskRepository.Create (task_repository.go lines 24 to 33): generate a
fresh identifier, write it into the caller's record through the pointer, copy
the record into a fresh cell and store that copy under the new identifier;
always returns a nil error. -/
def memCreate (w : World) (p : Ptr) : Except Err Unit × World :=
  match w.readCell p with
  | none => (.error .fault, w)
  | some task =>
      let newId := uuidString w.nextUuid
      let w1 := w.writeCell p { task with id := newId }
      let (q, w2) := w1.allocCell { task with id := newId }
      (.ok (),
       { w2 with repoTasks := aupdate w2.repoTasks newId q,
                 nextUuid := w2.nextUuid + 1 })

/-- TaskRepository.GetByID (task_repository.go lines 35 to 46): look the
identifier up; absent means NotFoundError, present means copy the stored
record into a fresh cell and return its pointer. -/
def memGetByID (w : World) (id : String) : Except Err Ptr × World :=
  match alookup w.repoTasks id with
  | none => (.error (.notFound ("task with ID " ++ id ++ " not found")), w)
  | some q =>
      match w.readCell q with
      | none => (.error .fault, w)
      | some task =>
          let (r, w1) := w.allocCell task
          (.ok r, w1)

/-- Iteration body of TaskRepository.List: copy each stored record into a
fresh cell and collect the pointers, in map-iteration order (modelled as
insertion order; the Go iteration order is unspecified and no claim depends
on it). -/
def memListGo : List (String × Ptr) → World → List Ptr × World
  | [], w => ([], w)
  | (_, q) :: rest, w =>
      match w.readCell q with
      | none => memListGo rest w
      | some task =>
          let (r, w1) := w.allocCell task
          let (rs, w2) := memListGo rest w1
          (r :: rs, w2)

/-- TaskRepository.List (task_repository.go lines 48 to 59): return fresh
copies of all stored records; always returns a nil error. -/
def memList (w : World) : List Ptr × World := memListGo w.repoTasks w

/-- The task values observable through the pointers List returns, read in the
world List leaves behind. -/
def memListValues (w : World) : List Task :=
  ((memList w).1).filterMap (memList w).2.readCell

/-- TaskRepository.Update (task_repository.go lines 61 to 73): the record's
identifier must already be stored, else NotFoundError; copy the caller's
record into a fresh cell and store that copy under the identifier. -/
def memUpdate (w : World) (p : Ptr) : Except Err Unit × World :=
  match w.readCell p with
  | none => (.error .fault, w)
  | some task =>
      match alookup w.repoTasks task.id with
      | none => (.error (.notFound ("task with ID " ++ task.id ++ " not found")), w)
      | some _ =>
          let (q, w1) := w.allocCell task
          (.ok (), { w1 with repoTasks := aupdate w1.repoTasks task.id q })

/-- TaskRepository.Delete (task_repository.go lines 75 to 84): the identifier
must be stored, else NotFoundError; remove the entry. -/
def memDelete (w : World) (id : String) : Except Err Unit × World :=
  match alookup w.repoTasks id with
  | none => (.error (.notFound ("task with ID " ++ id ++ " not found")), w)
  | some _ => (.ok (), { w with repoTasks := aerase w.repoTasks id })

/-- The transition table of TaskService.validateStatusTransition: the list of
target statuses the map validTransitions associates to a source status, none
when the source status is not a key of the map. -/
def validTransitionsOf (s : String) : Option (List String) :=
  if s = statusPending then some [statusInProgress, statusCompleted]
  else if s = statusInProgress then some [statusCompleted, statusPending]
  else if s = statusCompleted then some [statusPending, statusInProgress]
  else none

/-- TaskService.validateStatusTransition: success when source equals target
(checked first), otherwise look the source up in the transition table
(InvalidStatusError when absent) and scan the allowed targets
(InvalidStatusError when the target is not among them). -/
def validateStatusTransition (f t : String) : Except Err Unit :=
  if f = t then .ok ()
  else
    match validTransitionsOf f with
    | none => .error (.invalidStatus "invalid current status")
    | some allowed =>
        if t ∈ allowed then .ok ()
        else .error (.invalidStatus "invalid status transition")

/-- TaskService.CreateTask: build the record with status StatusPending, the
CreatedAt stamp from one clock call and the UpdatedAt stamp from the next
(two separate calls in the struct literal, evaluated in field order), the
identifier left at its zero value, allocate it, and hand the pointer to the
repository's Create; returns the caller's pointer on success. -/
def svcCreateTask (clock : Nat → Nat) (w : World) (title description : String)
    (dueDate : Nat) : Except Err Ptr × World :=
  let (t1, w1) := w.timeNow clock
  let (t2, w2) := w1.timeNow clock
  let (p, w3) := w2.allocCell
    { id := "", title := title, description := description,
      status := statusPending, createdAt := t1, updatedAt := t2, dueDate := dueDate }
  match memCreate w3 p with
  | (.error e, w4) => (.error e, w4)
  | (.ok _, w4) => (.ok p, w4)

/-- TaskService.GetTask: pass-through to the repository's GetByID. -/
def svcGetTask (w : World) (id : String) : Except Err Ptr × World :=
  memGetByID w id

/-- TaskService.ListTasks: pass-through to the repository's List. -/
def svcListTasks (w : World) : List Ptr × World := memList w

/-- TaskService.UpdateTask: load the existing record by the argument's
identifier (propagating NotFoundError), validate the status transition from
the existing status to the argument's status, then assign the existing
CreatedAt and a fresh clock reading as UpdatedAt through the caller's
pointer, and hand the pointer to the repository's Update; returns the
caller's pointer on success. -/
def svcUpdateTask (clock : Nat → Nat) (w : World) (p : Ptr) :
    Except Err Ptr × World :=
  match w.readCell p with
  | none => (.error .fault, w)
  | some task =>
      match memGetByID w task.id with
      | (.error e, w1) => (.error e, w1)
      | (.ok ep, w1) =>
          match w1.readCell ep with
          | none => (.error .fault, w1)
          | some existing =>
              match validateStatusTransition existing.status task.status with
              | .error e => (.error e, w1)
              | .ok _ =>
                  let w2 := w1.modifyCell p
                    (fun t => { t with createdAt := existing.createdAt })
                  let (n, w3) := w2.timeNow clock
                  let w4 := w3.modifyCell p (fun t => { t with updatedAt := n })
                  match memUpdate w4 p with
                  | (.error e, w5) => (.error e, w5)
                  | (.ok _, w5) => (.ok p, w5)

/-- TaskService.DeleteTask: verify existence through GetByID (propagating
NotFoundError), then delegate to the repository's Delete. -/
def svcDeleteTask (w : World) (id : String) : Except Err Unit × World :=
  match memGetByID w id with
  | (.error e, w1) => (.error e, w1)
  | (.ok _, w1) => memDelete w1 id

/-- A parsed HTTP request body for the update path: none models a Bind
failure, some models the decoded Task record. -/
abbrev UpdateBody := Option Task

/-- TaskHandler.CreateTask (task_handler.go lines 28 to 40): a Bind failure
yields 400; otherwise call the service and yield 500 on any service error,
201 on success.  No validator is invoked on the decoded request, so the
declared title requirement is never checked. -/
def handleCreateTask (clock : Nat → Nat) (w : World)
    (body : Option (String × String × Nat)) : Nat × World :=
  match body with
  | none => (400, w)
  | some (title, description, dueDate) =>
      match svcCreateTask clock w title description dueDate with
      | (.error _, w1) => (500, w1)
      | (.ok _, w1) => (201, w1)

/-- TaskHandler.UpdateTask (task_handler.go lines 61 to 75): a Bind failure
yields 400; otherwise overwrite the decoded record's identifier with the path
parameter, allocate it, call the service, and yield 500 on any service error
(NotFoundError and InvalidStatusError included), 200 on success. -/
def handleUpdateTask (clock : Nat → Nat) (w : World) (id : String)
    (body : UpdateBody) : Nat × World :=
  match body with
  | none => (400, w)
  | some t =>
      let (p, w1) := w.allocCell { t with id := id }
      match svcUpdateTask clock w1 p with
      | (.error _, w2) => (500, w2)
      | (.ok _, w2) => (200, w2)

/-- TaskHandler.DeleteTask (task_handler.go lines 77 to 84): call the service
and yield 500 on any service error (NotFoundError included), 204 on
success. -/
def handleDeleteTask (w : World) (id : String) : Nat × World :=
  match svcDeleteTask w id with
  | (.error _, w1) => (500, w1)
  | (.ok _, w1) => (204, w1)

section AssocLemmas

variable {α β : Type} [DecidableEq α]

theorem alookup_aupdate_self (l : List (α × β)) (k : α) (v : β) :
    alookup (aupdate l k v) k = some v := by
  induction l with
  | nil => simp [aupdate, alookup]
  | cons kv rest ih =>
      obtain ⟨a, b⟩ := kv
      by_cases h : a = k
      · simp [aupdate, h, alookup]
      · simp [aupdate, h, alookup, ih]

theorem alookup_aupdate_ne (l : List (α × β)) {a k : α} (v : β) (h : a ≠ k) :
    alookup (aupdate l k v) a = alookup l a := by
  induction l with
  | nil => simp [aupdate, alookup, (Ne.symm h)]
  | cons kv rest ih =>
      obtain ⟨a', b'⟩ := kv
      by_cases h' : a' = k
      · subst h'
        simp [aupdate, alookup, (Ne.symm h)]
      · simp [aupdate, h', alookup, ih]

theorem mem_of_alookup_some {l : List (α × β)} {a : α} {b : β}
    (h : alookup l a = some b) : (a, b) ∈ l := by
  induction l with
  | nil => simp [alookup] at h
  | cons kv rest ih =>
      obtain ⟨a', b'⟩ := kv
      by_cases hk : a' = a
      · subst hk
        simp [alookup] at h
        subst h
        exact List.mem_cons_self _ _
      · simp [alookup, hk] at h
        exact List.mem_cons_of_mem _ (ih h)

theorem mem_aupdate {l : List (α × β)} {k : α} {v : β} {kv : α × β}
    (h : kv ∈ aupdate l k v) : kv ∈ l ∨ kv = (k, v) := by
  induction l with
  | nil => simp [aupdate] at h; simp [h]
  | cons kv' rest ih =>
      obtain ⟨a', b'⟩ := kv'
      by_cases h' : a' = k
      · simp [aupdate, h'] at h
        rcases h with h | h
        · right; simp [h]
        · left; exact List.mem_cons_of_mem _ h
      · simp [aupdate, h'] at h
        rcases h with h | h
        · left; simp [h]
        · rcases ih h with h2 | h2
          · left; exact List.mem_cons_of_mem _ h2
          · right; exact h2

end AssocLemmas

theorem uuidString_injective : Function.Injective uuidString := by
  intro a b h
  have hd : (uuidString a).data = (uuidString b).data := by rw [h]
  simpa [uuidString] using hd

/-- Every heap key is below the allocation bound: fresh allocations never
overwrite a live cell. -/
def HeapBounded (w : World) : Prop :=
  ∀ kv ∈ w.heapCells, kv.1 < w.nextPtr

/-- Every pointer the repository stores dereferences to a record. -/
def RepoValid (w : World) : Prop :=
  ∀ kv ∈ w.repoTasks, (w.readCell kv.2).isSome = true

/-- Well-formed world: bounded heap and dereferenceable repository
pointers. -/
def WF (w : World) : Prop := HeapBounded w ∧ RepoValid w

instance (w : World) : Decidable (HeapBounded w) :=
  inferInstanceAs (Decidable (∀ kv ∈ w.heapCells, kv.1 < w.nextPtr))

instance (w : World) : Decidable (RepoValid w) :=
  inferInstanceAs (Decidable (∀ kv ∈ w.repoTasks, (w.readCell kv.2).isSome = true))

instance (w : World) : Decidable (WF w) :=
  inferInstanceAs (Decidable (HeapBounded w ∧ RepoValid w))

theorem ptr_lt_of_readCell_some {w : World} {p : Ptr} {t : Task}
    (hb : HeapBounded w) (h : w.readCell p = some t) : p < w.nextPtr :=
  hb (p, t) (mem_of_alookup_some h)

theorem repoPtr_lt_of_WF {w : World} {id : String} {q : Ptr}
    (hWF : WF w) (h : alookup w.repoTasks id = some q) : q < w.nextPtr := by
  have hv := hWF.2 (id, q) (mem_of_alookup_some h)
  obtain ⟨t, ht⟩ := Option.isSome_iff_exists.mp hv
  exact ptr_lt_of_readCell_some hWF.1 ht

/-- The six legal strict transitions of the table in spec section 4.2. -/
def specLegalPairs : List (String × String) :=
  [(statusPending, statusInProgress), (statusPending, statusCompleted),
   (statusInProgress, statusCompleted), (statusInProgress, statusPending),
   (statusCompleted, statusPending), (statusCompleted, statusInProgress)]

theorem validate_ok_iff (f t : String) :
    validateStatusTransition f t = Except.ok () ↔ (f = t ∨ (f, t) ∈ specLegalPairs) := by
  unfold validateStatusTransition validTransitionsOf
  split_ifs with h1 h2 h3 h4 <;>
    simp_all [specLegalPairs, statusPending, statusInProgress, statusCompleted] <;>
    tauto

theorem validate_unknown_rejected (f t : String) (hft : f ≠ t)
    (h : f ∉ specStatuses ∨ t ∉ specStatuses) :
    ∃ m, validateStatusTransition f t = Except.error (Err.invalidStatus m) := by
  unfold validateStatusTransition validTransitionsOf
  split_ifs <;>
    simp_all [specStatuses, statusPending, statusInProgress, statusCompleted]

/-- C1, amended.  The update-path status-transition validation succeeds
exactly when the source status equals the target status or the pair is one of
the six legal strict transitions of the table; a status value outside the
three enumerated values is rejected with InvalidStatus whenever the source
and target differ.  (The claim as frozen also demanded rejection of outside
values when source and target coincide; the code checks equality first, so an
unknown status transitioning to itself is accepted — see the
counterexample.) -/
theorem C1_status_transition_validation (f t : String) :
    (validateStatusTransition f t = .ok () ↔ (f = t ∨ (f, t) ∈ specLegalPairs)) ∧
    (f ≠ t → (f ∉ specStatuses ∨ t ∉ specStatuses) →
      ∃ m, validateStatusTransition f t = .error (.invalidStatus m)) :=
  ⟨validate_ok_iff f t, fun hft h => validate_unknown_rejected f t hft h⟩

/-- C1 witness: at the concrete pair (pending, archived) the hypotheses hold
and validation rejects with InvalidStatus. -/
theorem C1_status_transition_validation_witness :
    ∃ m, validateStatusTransition statusPending "archived"
      = .error (.invalidStatus m) :=
  (C1_status_transition_validation statusPending "archived").2
    (by decide) (Or.inr (by decide))

/-- C1 counterexample: the status value archived lies outside the enumerated
set, yet validating the transition from archived to archived succeeds,
because the source-equals-target check precedes any validity check — refuting
the claim that an outside value is always rejected with InvalidStatus. -/
theorem C1_unknown_self_transition_accepted :
    validateStatusTransition "archived" "archived" = .ok () ∧
    "archived" ∉ specStatuses := by decide

/-- C2, amended.  For every creation input and every ambient clock,
create_task succeeds and the returned persisted task has status pending, its
created_at stamped from one clock call and its updated_at from the
immediately following clock call (the struct literal evaluates two separate
now calls); the stored copy carries the same values.  The two stamps are
equal exactly when the two consecutive clock readings coincide — the frozen
claim's created_at == updated_at is not guaranteed by the code (see the
counterexample with an advancing clock). -/
theorem C2_create_pending_and_two_stamps (clock : Nat → Nat) (w : World)
    (title d : String) (due : Nat) :
    ∃ p w', svcCreateTask clock w title d due = (.ok p, w') ∧
      w'.readCell p = some
        { id := uuidString w.nextUuid, title := title, description := d,
          status := statusPending, createdAt := clock w.nowIdx,
          updatedAt := clock (w.nowIdx + 1), dueDate := due } ∧
      storedValue w' (uuidString w.nextUuid) = some
        { id := uuidString w.nextUuid, title := title, description := d,
          status := statusPending, createdAt := clock w.nowIdx,
          updatedAt := clock (w.nowIdx + 1), dueDate := due } := by
  simp only [svcCreateTask, memCreate, World.timeNow, World.allocCell, World.readCell,
    World.writeCell, alookup_aupdate_self, storedValue]
  refine ⟨_, _, rfl, ?_, ?_⟩
  · dsimp only
    rw [alookup_aupdate_ne _ _ (show w.nextPtr ≠ w.nextPtr + 1 by simp),
      alookup_aupdate_self]
  · dsimp only
    rw [alookup_aupdate_self]
    simp only [Option.some_bind]
    rw [alookup_aupdate_self]

/-- C2 counterexample: on a fresh world under the identity clock (each clock
call reads one tick later than the previous one), creating a task succeeds
and returns the record at cell 0, whose status is pending but whose
created_at is 0 while its updated_at is 1 — refuting the frozen claim that
created_at always equals updated_at. -/
theorem C2_counterexample_distinct_stamps :
    (svcCreateTask (fun i => i) World.empty "A" "d" 9).1 = .ok 0 ∧
    ((svcCreateTask (fun i => i) World.empty "A" "d" 9).2.readCell 0).map Task.status
      = some statusPending ∧
    ((svcCreateTask (fun i => i) World.empty "A" "d" 9).2.readCell 0).map Task.createdAt
      = some 0 ∧
    ((svcCreateTask (fun i => i) World.empty "A" "d" 9).2.readCell 0).map Task.updatedAt
      = some 1 := by decide

/-- C10.  The in-memory create writes the freshly generated identifier into
the caller's record through the argument pointer before storing a copy: after
create returns, the caller's own cell carries the assigned identifier, the
repository maps that identifier to a different cell, and overwriting the
caller's cell afterwards leaves the stored copy unchanged. -/
theorem C10_create_mutates_argument (w : World) (p : Ptr) (task : Task)
    (hp : w.readCell p = some task) (hb : HeapBounded w) :
    ∃ w1, memCreate w p = (.ok (), w1) ∧
      w1.readCell p = some { task with id := uuidString w.nextUuid } ∧
      ∃ q, alookup w1.repoTasks (uuidString w.nextUuid) = some q ∧ q ≠ p ∧
        ∀ t', storedValue (w1.writeCell p t') (uuidString w.nextUuid)
          = some { task with id := uuidString w.nextUuid } := by
  have hlt : p < w.nextPtr := ptr_lt_of_readCell_some hb hp
  have hne : p ≠ w.nextPtr := Nat.ne_of_lt hlt
  simp only [World.readCell] at hp
  simp only [memCreate, World.readCell, hp, World.allocCell, World.writeCell, storedValue]
  refine ⟨_, rfl, ?_, w.nextPtr, ?_, Ne.symm hne, ?_⟩
  · dsimp only
    rw [alookup_aupdate_ne _ _ hne, alookup_aupdate_self]
  · dsimp only
    rw [alookup_aupdate_self]
  · intro t'
    dsimp only
    rw [alookup_aupdate_self]
    simp only [Option.some_bind]
    rw [alookup_aupdate_ne _ _ (Ne.symm hne), alookup_aupdate_self]

/-- Concrete record for the C10 witness scenario. -/
def c10Task : Task :=
  { id := "x", title := "A", description := "d", status := statusPending,
    createdAt := 3, updatedAt := 3, dueDate := 0 }

/-- Concrete world for the C10 witness scenario: one allocated cell. -/
def c10World : World := (World.empty.allocCell c10Task).2

/-- C10 witness: the in-place identifier assignment and the independence of
the stored copy, at a concrete one-cell world. -/
theorem C10_create_mutates_argument_witness :
    ∃ w1, memCreate c10World 0 = (.ok (), w1) ∧
      w1.readCell 0 = some { c10Task with id := uuidString c10World.nextUuid } ∧
      ∃ q, alookup w1.repoTasks (uuidString c10World.nextUuid) = some q ∧ q ≠ 0 ∧
        ∀ t', storedValue (w1.writeCell 0 t') (uuidString c10World.nextUuid)
          = some { c10Task with id := uuidString c10World.nextUuid } :=
  C10_create_mutates_argument c10World 0 c10Task (by decide) (by decide)

theorem alookup_eq_none_of_forall_ne {α β : Type} [DecidableEq α]
    {l : List (α × β)} {a : α} (h : ∀ kv ∈ l, kv.1 ≠ a) : alookup l a = none := by
  induction l with
  | nil => rfl
  | cons kv rest ih =>
      obtain ⟨k, v⟩ := kv
      have hk : k ≠ a := h (k, v) (List.mem_cons_self _ _)
      simp only [alookup, if_neg hk]
      exact ih (fun kv hkv => h kv (List.mem_cons_of_mem _ hkv))

/-- Every repository key was produced by the UUID generator at a counter
value already consumed: the reachable-state invariant giving freshness of the
next generated identifier. -/
def RepoKeysGenerated (w : World) : Prop :=
  ∀ kv ∈ w.repoTasks, kv.1 ∈ (List.range w.nextUuid).map uuidString

instance (w : World) : Decidable (RepoKeysGenerated w) :=
  inferInstanceAs
    (Decidable (∀ kv ∈ w.repoTasks, kv.1 ∈ (List.range w.nextUuid).map uuidString))

theorem fresh_uuid_not_stored {w : World} (hk : RepoKeysGenerated w) :
    alookup w.repoTasks (uuidString w.nextUuid) = none := by
  refine alookup_eq_none_of_forall_ne (fun kv hkv => ?_)
  obtain ⟨k, hkmem, hkeq⟩ := List.mem_map.mp (hk kv hkv)
  have hklt : k < w.nextUuid := List.mem_range.mp hkmem
  intro hcontra
  have : k = w.nextUuid := uuidString_injective (hkeq.trans hcontra)
  omega

/-- C5, amended.  The in-memory create assigns a fresh identifier (one no
stored record already carries), stores under it an independent copy of the
input record — in a cell distinct from the caller's — with every other field
of the input, its timestamps included, propagated unchanged, and always
returns success; it never reads the clock, so it assigns no timestamps (those
are stamped by the service before the call).  The generator counter advances
by one per create and the generated identifiers are injective in the counter,
so identifiers of two sequential creates differ. -/
theorem C5_create_fresh_id_copies_input (w : World) (p : Ptr) (task : Task)
    (hp : w.readCell p = some task) (hb : HeapBounded w) (hk : RepoKeysGenerated w) :
    ∃ w1, memCreate w p = (.ok (), w1) ∧
      alookup w.repoTasks (uuidString w.nextUuid) = none ∧
      storedValue w1 (uuidString w.nextUuid)
        = some { task with id := uuidString w.nextUuid } ∧
      (∃ q, alookup w1.repoTasks (uuidString w.nextUuid) = some q ∧ q ≠ p) ∧
      w1.nowIdx = w.nowIdx ∧
      w1.nextUuid = w.nextUuid + 1 ∧
      ∀ n m : Nat, n ≠ m → uuidString n ≠ uuidString m := by
  have hlt : p < w.nextPtr := ptr_lt_of_readCell_some hb hp
  have hne : p ≠ w.nextPtr := Nat.ne_of_lt hlt
  simp only [World.readCell] at hp
  simp only [memCreate, World.readCell, hp, World.allocCell, World.writeCell, storedValue]
  refine ⟨_, rfl, fresh_uuid_not_stored hk, ?_, ⟨w.nextPtr, ?_, Ne.symm hne⟩, rfl, rfl,
    fun n m hnm hc => hnm (uuidString_injective hc)⟩
  · dsimp only
    rw [alookup_aupdate_self]
    simp only [Option.some_bind]
    rw [alookup_aupdate_self]
  · dsimp only
    rw [alookup_aupdate_self]

/-- Concrete input record for the C5 scenarios, with deliberately unequal
timestamps. -/
def c5TaskA : Task :=
  { id := "", title := "A", description := "d", status := statusPending,
    createdAt := 42, updatedAt := 7, dueDate := 0 }

/-- The C5 input with only its creation timestamp changed. -/
def c5TaskB : Task := { c5TaskA with createdAt := 43 }

/-- One-cell world holding the first C5 input. -/
def c5WorldA : World := (World.empty.allocCell c5TaskA).2

/-- One-cell world holding the second C5 input. -/
def c5WorldB : World := (World.empty.allocCell c5TaskB).2

/-- C5 witness: the amended create contract at a concrete one-cell world. -/
theorem C5_create_fresh_id_copies_input_witness :
    ∃ w1, memCreate c5WorldA 0 = (.ok (), w1) ∧
      alookup c5WorldA.repoTasks (uuidString c5WorldA.nextUuid) = none ∧
      storedValue w1 (uuidString c5WorldA.nextUuid)
        = some { c5TaskA with id := uuidString c5WorldA.nextUuid } ∧
      (∃ q, alookup w1.repoTasks (uuidString c5WorldA.nextUuid) = some q ∧ q ≠ 0) ∧
      w1.nowIdx = c5WorldA.nowIdx ∧
      w1.nextUuid = c5WorldA.nextUuid + 1 ∧
      ∀ n m : Nat, n ≠ m → uuidString n ≠ uuidString m :=
  C5_create_fresh_id_copies_input c5WorldA 0 c5TaskA (by decide) (by decide) (by decide)

/-- C5 counterexample: the stored record's timestamps track the input, not
the storage layer — two creates whose inputs differ only in created_at store
records with created_at 42 and 43 respectively, the input's updated_at 7 is
stored verbatim, and the clock counter is never advanced by create.  This
refutes the frozen claim that the storage create operation assigns the
creation/update timestamps of the stored record. -/
theorem C5_counterexample_timestamps_not_assigned :
    (storedValue (memCreate c5WorldA 0).2 (uuidString 0)).map Task.createdAt = some 42 ∧
    (storedValue (memCreate c5WorldB 0).2 (uuidString 0)).map Task.createdAt = some 43 ∧
    (storedValue (memCreate c5WorldA 0).2 (uuidString 0)).map Task.updatedAt = some 7 ∧
    (memCreate c5WorldA 0).2.nowIdx = c5WorldA.nowIdx := by decide

/-- The record the service builds for a creation request, after the
repository has stamped the fresh identifier into it. -/
def createdTask (clock : Nat → Nat) (w : World) (title d : String) (due : Nat) : Task :=
  { id := uuidString w.nextUuid, title := title, description := d,
    status := statusPending, createdAt := clock w.nowIdx,
    updatedAt := clock (w.nowIdx + 1), dueDate := due }

theorem svcCreateTask_run (clock : Nat → Nat) (w : World) (title d : String) (due : Nat) :
    svcCreateTask clock w title d due =
      (.ok w.nextPtr,
       { heapCells :=
           aupdate (aupdate (aupdate w.heapCells w.nextPtr
               { createdTask clock w title d due with id := "" })
             w.nextPtr (createdTask clock w title d due))
             (w.nextPtr + 1) (createdTask clock w title d due),
         nextPtr := w.nextPtr + 1 + 1,
         repoTasks := aupdate w.repoTasks (uuidString w.nextUuid) (w.nextPtr + 1),
         nextUuid := w.nextUuid + 1,
         nowIdx := w.nowIdx + 1 + 1 }) := by
  simp only [svcCreateTask, memCreate, World.timeNow, World.allocCell, World.readCell,
    World.writeCell, alookup_aupdate_self, createdTask]

theorem memGetByID_run {w : World} {id : String} {q : Ptr} {t : Task}
    (h1 : alookup w.repoTasks id = some q) (h2 : w.readCell q = some t) :
    memGetByID w id = (.ok w.nextPtr, (w.allocCell t).2) := by
  simp only [memGetByID, h1, h2, World.allocCell]

/-- C7.  Creating a task and immediately fetching it by its identifier
returns a record field-equal to the created one (same identifier, title,
description, status, timestamps and due date) held in a distinct cell: the
fetched pointer differs from the caller's, and overwriting the fetched cell
with any record leaves what a subsequent fetch of the same identifier
returns unchanged. -/
theorem C7_create_fetch_roundtrip (clock : Nat → Nat) (w : World)
    (title d : String) (due : Nat) (p : Ptr) (w1 : World)
    (hrun : svcCreateTask clock w title d due = (.ok p, w1))
    (T : Task) (hT : w1.readCell p = some T) :
    ∃ q w2, svcGetTask w1 T.id = (.ok q, w2) ∧
      w2.readCell q = some T ∧ q ≠ p ∧
      ∀ T', ∃ r w4, svcGetTask (w2.writeCell q T') T.id = (.ok r, w4) ∧
        w4.readCell r = some T := by
  rw [svcCreateTask_run] at hrun
  injection hrun with h1 h2
  injection h1 with h1
  subst h1
  subst h2
  simp only [World.readCell] at hT
  rw [alookup_aupdate_ne _ _ (show w.nextPtr ≠ w.nextPtr + 1 by simp),
    alookup_aupdate_self] at hT
  injection hT with hT
  subst hT
  have hid : (createdTask clock w title d due).id = uuidString w.nextUuid := rfl
  rw [svcGetTask, memGetByID_run (q := w.nextPtr + 1) (t := createdTask clock w title d due)
    (by rw [hid]; exact alookup_aupdate_self _ _ _)
    (by simp only [World.readCell]; exact alookup_aupdate_self _ _ _)]
  refine ⟨_, _, rfl, ?_,
    Ne.symm (Nat.ne_of_lt (Nat.lt_trans (Nat.lt_succ_self _) (Nat.lt_succ_self _))), ?_⟩
  · simp only [World.allocCell, World.readCell]
    exact alookup_aupdate_self _ _ _
  · intro T'
    rw [svcGetTask, memGetByID_run (q := w.nextPtr + 1) (t := createdTask clock w title d due)
      (by rw [hid]; exact alookup_aupdate_self _ _ _) ?hrc]
    case hrc =>
      simp only [World.writeCell, World.allocCell, World.readCell]
      rw [alookup_aupdate_ne _ _ (show w.nextPtr + 1 ≠ w.nextPtr + 1 + 1 by simp),
        alookup_aupdate_ne _ _ (show w.nextPtr + 1 ≠ w.nextPtr + 1 + 1 by simp),
        alookup_aupdate_self]
    refine ⟨_, _, rfl, ?_⟩
    simp only [World.writeCell, World.allocCell, World.readCell]
    exact alookup_aupdate_self _ _ _

/-- The world after the concrete C7 creation. -/
def c7World : World := (svcCreateTask (fun i => i) World.empty "A" "d" 9).2

/-- The record the concrete C7 creation persists. -/
def c7Task : Task :=
  { id := uuidString 0, title := "A", description := "d", status := statusPending,
    createdAt := 0, updatedAt := 1, dueDate := 9 }

/-- C7 witness: the round trip at a concrete creation on a fresh world. -/
theorem C7_create_fetch_roundtrip_witness :
    ∃ q w2, svcGetTask c7World c7Task.id = (.ok q, w2) ∧
      w2.readCell q = some c7Task ∧ q ≠ 0 ∧
      ∀ T', ∃ r w4, svcGetTask (w2.writeCell q T') c7Task.id = (.ok r, w4) ∧
        w4.readCell r = some c7Task :=
  C7_create_fetch_roundtrip (fun i => i) World.empty "A" "d" 9 0 c7World
    (by decide) c7Task (by decide)

/-- C3.  For an existing task and a successful update through the service,
the stored record afterwards keeps the created_at it had before the update —
whatever created_at the input carried — its updated_at is the clock reading
taken during the update, and the record stored under every other identifier
is unchanged. -/
theorem C3_update_preserves_createdAt (clock : Nat → Nat) (w : World) (p : Ptr)
    (task oldTask : Task) (oldPtr : Ptr)
    (hp : w.readCell p = some task)
    (hrepo : alookup w.repoTasks task.id = some oldPtr)
    (hold : w.readCell oldPtr = some oldTask)
    (hWF : WF w)
    (hNoAlias : ∀ kv ∈ w.repoTasks, kv.2 ≠ p)
    (hval : validateStatusTransition oldTask.status task.status = .ok ()) :
    ∃ w', svcUpdateTask clock w p = (.ok p, w') ∧
      storedValue w' task.id
        = some { task with createdAt := oldTask.createdAt,
                           updatedAt := clock w.nowIdx } ∧
      ∀ id, id ≠ task.id → storedValue w' id = storedValue w id := by
  have hb := hWF.1
  have hplt : p < w.nextPtr := ptr_lt_of_readCell_some hb hp
  have hpne : p ≠ w.nextPtr := Nat.ne_of_lt hplt
  simp only [svcUpdateTask, hp, memGetByID_run hrepo hold]
  simp only [World.allocCell, World.readCell, World.writeCell, World.modifyCell,
    World.timeNow, alookup_aupdate_self]
  rw [alookup_aupdate_ne _ _ hpne]
  simp only [World.readCell] at hp
  simp only [hp, hval]
  rw [alookup_aupdate_self]
  simp only [memUpdate, World.readCell, World.allocCell, alookup_aupdate_self]
  rw [hrepo]
  refine ⟨_, rfl, ?_, ?_⟩
  · simp only [storedValue, World.readCell, alookup_aupdate_self, Option.some_bind]
  · intro id hne
    simp only [storedValue, World.readCell]
    rw [alookup_aupdate_ne _ _ hne]
    cases hr : alookup w.repoTasks id with
    | none => simp
    | some r =>
        have hrp : r ≠ p := hNoAlias (id, r) (mem_of_alookup_some hr)
        have hrlt : r < w.nextPtr := repoPtr_lt_of_WF hWF hr
        simp only [Option.some_bind]
        rw [alookup_aupdate_ne _ _ (Nat.ne_of_lt (Nat.lt_trans hrlt (Nat.lt_succ_self _))),
          alookup_aupdate_ne _ _ hrp, alookup_aupdate_ne _ _ hrp,
          alookup_aupdate_ne _ _ (Nat.ne_of_lt hrlt)]

/-- World with one created task, for the C3 scenario. -/
def c3Base : World := (svcCreateTask (fun i => i) World.empty "A" "d" 9).2

/-- The record c3Base stores: the one persisted at creation. -/
def c3Old : Task :=
  { id := uuidString 0, title := "A", description := "d", status := statusPending,
    createdAt := 0, updatedAt := 1, dueDate := 9 }

/-- The caller's update record in the C3 scenario: same identifier, new
title, strict pending-to-in-progress transition, and a bogus created_at the
service must discard. -/
def c3Update : Task :=
  { id := uuidString 0, title := "B", description := "e", status := statusInProgress,
    createdAt := 77, updatedAt := 88, dueDate := 5 }

/-- The C3 world: the base world with the caller's update record allocated
at cell 2. -/
def c3World : World := (c3Base.allocCell c3Update).2

/-- C3 witness: the concrete update succeeds, keeps created_at 0 in spite of
the input's 77, stamps updated_at with the update-time clock reading 2, and
leaves every other identifier's stored record unchanged. -/
theorem C3_update_preserves_createdAt_witness :
    ∃ w', svcUpdateTask (fun i => i) c3World 2 = (.ok 2, w') ∧
      storedValue w' c3Update.id
        = some { c3Update with createdAt := 0, updatedAt := 2 } ∧
      ∀ id, id ≠ c3Update.id → storedValue w' id = storedValue c3World id :=
  C3_update_preserves_createdAt (fun i => i) c3World 2 c3Update c3Old 1
    (by decide) (by decide) (by decide) (by decide) (by decide) (by decide)

theorem storedValue_alloc (w : World) (t : Task) (hWF : WF w) (id : String) :
    storedValue (w.allocCell t).2 id = storedValue w id := by
  simp only [storedValue, World.allocCell]
  cases hr : alookup w.repoTasks id with
  | none => rfl
  | some r =>
      have hrlt := repoPtr_lt_of_WF hWF hr
      simp only [Option.some_bind, World.readCell]
      rw [alookup_aupdate_ne _ _ (Nat.ne_of_lt hrlt)]

theorem svcUpdateTask_ok_of_valid (clock : Nat → Nat) (w : World) (p : Ptr)
    (task oldTask : Task) (oldPtr : Ptr)
    (hp : w.readCell p = some task)
    (hrepo : alookup w.repoTasks task.id = some oldPtr)
    (hold : w.readCell oldPtr = some oldTask)
    (hb : HeapBounded w)
    (hval : validateStatusTransition oldTask.status task.status = .ok ()) :
    (svcUpdateTask clock w p).1 = .ok p := by
  have hplt : p < w.nextPtr := ptr_lt_of_readCell_some hb hp
  have hpne : p ≠ w.nextPtr := Nat.ne_of_lt hplt
  simp only [svcUpdateTask, hp, memGetByID_run hrepo hold]
  simp only [World.allocCell, World.readCell, World.writeCell, World.modifyCell,
    World.timeNow, alookup_aupdate_self]
  rw [alookup_aupdate_ne _ _ hpne]
  simp only [World.readCell] at hp
  simp only [hp, hval]
  rw [alookup_aupdate_self]
  simp only [memUpdate, World.readCell, World.allocCell, alookup_aupdate_self]
  rw [hrepo]

/-- C4.  Updating through the service a record whose identifier is not in
storage fails with NotFound; and every failing update — missing identifier,
invalid transition, or invalid pointer — leaves the storage state unchanged:
the repository map is identical and the record observable under every
identifier has the same field values as before. -/
theorem C4_failed_update_leaves_storage (clock : Nat → Nat) (w : World)
    (p : Ptr) (hWF : WF w) :
    (∀ task, w.readCell p = some task → alookup w.repoTasks task.id = none →
      ∃ m, (svcUpdateTask clock w p).1 = .error (.notFound m)) ∧
    (∀ e, (svcUpdateTask clock w p).1 = .error e →
      (svcUpdateTask clock w p).2.repoTasks = w.repoTasks ∧
      ∀ id, storedValue (svcUpdateTask clock w p).2 id = storedValue w id) := by
  constructor
  · intro task htask hnone
    simp only [svcUpdateTask, htask, memGetByID, hnone]
    exact ⟨_, rfl⟩
  · intro e he
    cases hcell : w.readCell p with
    | none =>
        simp only [svcUpdateTask, hcell]
        exact ⟨trivial, fun _ => trivial⟩
    | some task =>
        cases hrepo : alookup w.repoTasks task.id with
        | none =>
            simp only [svcUpdateTask, hcell, memGetByID, hrepo]
            exact ⟨trivial, fun _ => trivial⟩
        | some q =>
            have hv := hWF.2 (task.id, q) (mem_of_alookup_some hrepo)
            obtain ⟨oldTask, hold⟩ := Option.isSome_iff_exists.mp hv
            cases hval : validateStatusTransition oldTask.status task.status with
            | ok u =>
                exfalso
                cases u
                have hok := svcUpdateTask_ok_of_valid clock w p task oldTask q
                  hcell hrepo hold hWF.1 hval
                rw [he] at hok
                cases hok
            | error e2 =>
                simp only [svcUpdateTask, hcell, memGetByID_run hrepo hold]
                simp only [World.allocCell, World.readCell, alookup_aupdate_self, hval]
                exact ⟨trivial, fun id => storedValue_alloc w oldTask hWF id⟩

/-- The C4 world: empty storage, one caller cell holding a record whose
identifier is not stored. -/
def c4World : World := (World.empty.allocCell c5TaskA).2

/-- C4 witness: on empty storage the update fails with NotFound and the
storage observation is unchanged, at the concrete one-cell world. -/
theorem C4_failed_update_leaves_storage_witness :
    (∀ task, c4World.readCell 0 = some task →
      alookup c4World.repoTasks task.id = none →
      ∃ m, (svcUpdateTask (fun i => i) c4World 0).1 = .error (.notFound m)) ∧
    (∀ e, (svcUpdateTask (fun i => i) c4World 0).1 = .error e →
      (svcUpdateTask (fun i => i) c4World 0).2.repoTasks = c4World.repoTasks ∧
      ∀ id, storedValue (svcUpdateTask (fun i => i) c4World 0).2 id
        = storedValue c4World id) :=
  C4_failed_update_leaves_storage (fun i => i) c4World 0 (by decide)

theorem aupdate_eq_append {α β : Type} [DecidableEq α] {l : List (α × β)} {k : α} {v : β}
    (h : ∀ kv ∈ l, kv.1 ≠ k) : aupdate l k v = l ++ [(k, v)] := by
  induction l with
  | nil => rfl
  | cons kv rest ih =>
      obtain ⟨a, b⟩ := kv
      have ha : a ≠ k := h (a, b) (List.mem_cons_self _ _)
      simp only [aupdate, if_neg ha, List.cons_append,
        ih (fun kv hkv => h kv (List.mem_cons_of_mem _ hkv))]

theorem memListGo_nextPtr_le (l : List (String × Ptr)) (w : World) :
    w.nextPtr ≤ (memListGo l w).2.nextPtr := by
  induction l generalizing w with
  | nil => exact Nat.le_refl _
  | cons kv rest ih =>
      obtain ⟨k, q⟩ := kv
      cases hq : w.readCell q with
      | none => simpa [memListGo, hq] using ih w
      | some v =>
          simp only [memListGo, hq, World.allocCell]
          exact Nat.le_trans (Nat.le_succ _)
            (ih { w with heapCells := aupdate w.heapCells w.nextPtr v,
                         nextPtr := w.nextPtr + 1 })

theorem memListGo_readCell_lt (l : List (String × Ptr)) (w : World) (p : Ptr)
    (hlt : p < w.nextPtr) :
    (memListGo l w).2.readCell p = w.readCell p := by
  induction l generalizing w with
  | nil => rfl
  | cons kv rest ih =>
      obtain ⟨k, q⟩ := kv
      cases hq : w.readCell q with
      | none => simpa [memListGo, hq] using ih w hlt
      | some v =>
          simp only [memListGo, hq, World.allocCell]
          rw [ih _ (Nat.lt_succ_of_lt hlt)]
          simp only [World.readCell]
          exact alookup_aupdate_ne _ _ (Nat.ne_of_lt hlt)

theorem filterMap_readCell_congr (l : List (String × Ptr)) (w w' : World)
    (h : ∀ kv ∈ l, w'.readCell kv.2 = w.readCell kv.2) :
    (l.filterMap (fun kv => w'.readCell kv.2))
      = l.filterMap (fun kv => w.readCell kv.2) := by
  induction l with
  | nil => rfl
  | cons kv rest ih =>
      simp only [List.filterMap_cons, h kv (List.mem_cons_self _ _),
        ih (fun kv hkv => h kv (List.mem_cons_of_mem _ hkv))]

theorem memListGo_filterMap (l : List (String × Ptr)) (w : World)
    (hb : ∀ kv ∈ l, kv.2 < w.nextPtr) :
    ((memListGo l w).1).filterMap ((memListGo l w).2).readCell
      = l.filterMap (fun kv => w.readCell kv.2) := by
  induction l generalizing w with
  | nil => rfl
  | cons kv rest ih =>
      obtain ⟨k, q⟩ := kv
      have hqlt : q < w.nextPtr := hb (k, q) (List.mem_cons_self _ _)
      cases hq : w.readCell q with
      | none =>
          simp only [memListGo, hq, List.filterMap_cons]
          rw [ih w (fun kv hkv => hb kv (List.mem_cons_of_mem _ hkv))]
      | some v =>
          simp only [memListGo, hq, World.allocCell, List.filterMap_cons]
          have hb1 : ∀ kv ∈ rest, kv.2 < w.nextPtr + 1 :=
            fun kv hkv => Nat.lt_succ_of_lt (hb kv (List.mem_cons_of_mem _ hkv))
          have hhead :
              (memListGo rest
                { w with heapCells := aupdate w.heapCells w.nextPtr v,
                         nextPtr := w.nextPtr + 1 }).2.readCell w.nextPtr = some v := by
            rw [memListGo_readCell_lt _ _ _ (Nat.lt_succ_self _)]
            simp only [World.readCell]
            exact alookup_aupdate_self _ _ _
          rw [hhead, ih _ hb1]
          rw [filterMap_readCell_congr rest w
            { w with heapCells := aupdate w.heapCells w.nextPtr v,
                     nextPtr := w.nextPtr + 1 }
            (fun kv hkv => by
              simp only [World.readCell]
              exact alookup_aupdate_ne _ _
                (Nat.ne_of_lt (hb kv (List.mem_cons_of_mem _ hkv))))]

/-- Every stored pointer dereferences to a record carrying the identifier it
is stored under. -/
def RepoReadable (w : World) : Prop :=
  ∀ kv ∈ w.repoTasks, ∃ v, w.readCell kv.2 = some v ∧ v.id = kv.1

/-- The invariant of worlds reachable by creation: bounded heap, readable
repository entries labelled by their key, no duplicate keys, and all keys
produced by the UUID generator. -/
def Inv (w : World) : Prop :=
  HeapBounded w ∧ RepoReadable w ∧ (w.repoTasks.map Prod.fst).Nodup ∧ RepoKeysGenerated w

theorem Inv_empty : Inv World.empty := by
  refine ⟨?_, ?_, ?_, ?_⟩ <;>
    simp [HeapBounded, RepoReadable, RepoKeysGenerated, World.empty]

theorem repo_keys_ne_fresh {w : World} (hk : RepoKeysGenerated w) :
    ∀ kv ∈ w.repoTasks, kv.1 ≠ uuidString w.nextUuid := by
  intro kv hkv hcontra
  obtain ⟨k, hkmem, hkeq⟩ := List.mem_map.mp (hk kv hkv)
  have hklt : k < w.nextUuid := List.mem_range.mp hkmem
  have : k = w.nextUuid := uuidString_injective (hkeq.trans hcontra)
  omega

/-- N successive service creations with per-step inputs. -/
def createN (clock : Nat → Nat) (inputs : Nat → String × String × Nat) :
    Nat → World → World
  | 0, w => w
  | k + 1, w =>
      createN clock inputs k
        (svcCreateTask clock w (inputs k).1 (inputs k).2.1 (inputs k).2.2).2

theorem svcCreate_step (clock : Nat → Nat) (w : World) (title d : String) (due : Nat)
    (hInv : Inv w) :
    Inv (svcCreateTask clock w title d due).2 ∧
    (svcCreateTask clock w title d due).2.repoTasks.length
      = w.repoTasks.length + 1 := by
  obtain ⟨hb, hr, hnd, hk⟩ := hInv
  have hfresh := repo_keys_ne_fresh hk
  have happ : aupdate w.repoTasks (uuidString w.nextUuid) (w.nextPtr + 1)
      = w.repoTasks ++ [(uuidString w.nextUuid, w.nextPtr + 1)] :=
    aupdate_eq_append hfresh
  rw [svcCreateTask_run]
  refine ⟨⟨?_, ?_, ?_, ?_⟩, ?_⟩
  · intro kv hkv
    rcases mem_aupdate hkv with h | h
    · rcases mem_aupdate h with h2 | h2
      · rcases mem_aupdate h2 with h3 | h3
        · exact Nat.lt_trans (hb kv h3)
            (Nat.lt_trans (Nat.lt_succ_self _) (Nat.lt_succ_self _))
        · rw [h3]
          exact Nat.lt_trans (Nat.lt_succ_self _) (Nat.lt_succ_self _)
      · rw [h2]
        exact Nat.lt_trans (Nat.lt_succ_self _) (Nat.lt_succ_self _)
    · rw [h]
      exact Nat.lt_succ_self _
  · intro kv hkv
    rcases mem_aupdate hkv with h | h
    · obtain ⟨v, hvv, hid⟩ := hr kv h
      have hlt : kv.2 < w.nextPtr := ptr_lt_of_readCell_some hb hvv
      refine ⟨v, ?_, hid⟩
      simp only [World.readCell]
      rw [alookup_aupdate_ne _ _ (Nat.ne_of_lt (Nat.lt_trans hlt (Nat.lt_succ_self _))),
        alookup_aupdate_ne _ _ (Nat.ne_of_lt hlt),
        alookup_aupdate_ne _ _ (Nat.ne_of_lt hlt)]
      exact hvv
    · refine ⟨createdTask clock w title d due, ?_, ?_⟩
      · rw [h]
        simp only [World.readCell]
        exact alookup_aupdate_self _ _ _
      · rw [h]
        rfl
  · simp only [happ, List.map_append, List.map_cons, List.map_nil]
    refine List.Nodup.append hnd (List.nodup_singleton _) ?_
    intro x hx hxs
    obtain ⟨kv, hkv, hkveq⟩ := List.mem_map.mp hx
    rw [List.mem_singleton.mp hxs] at hkveq
    exact hfresh kv hkv hkveq
  · intro kv hkv
    rcases mem_aupdate hkv with h | h
    · obtain ⟨k, hkmem, hkeq⟩ := List.mem_map.mp (hk kv h)
      exact List.mem_map.mpr
        ⟨k, List.mem_range.mpr (Nat.lt_succ_of_lt (List.mem_range.mp hkmem)), hkeq⟩
    · rw [h]
      exact List.mem_map.mpr ⟨w.nextUuid, List.mem_range.mpr (Nat.lt_succ_self _), rfl⟩
  · rw [happ]
    simp

theorem createN_inv (clock : Nat → Nat) (inputs : Nat → String × String × Nat) :
    ∀ (N : Nat) (w : World), Inv w →
      Inv (createN clock inputs N w) ∧
      (createN clock inputs N w).repoTasks.length = w.repoTasks.length + N := by
  intro N
  induction N with
  | zero => exact fun w h => ⟨h, rfl⟩
  | succ k ih =>
      intro w h
      have hstep := svcCreate_step clock w (inputs k).1 (inputs k).2.1 (inputs k).2.2 h
      have hrec := ih _ hstep.1
      refine ⟨hrec.1, ?_⟩
      show (createN clock inputs k _).repoTasks.length = _
      rw [hrec.2, hstep.2]
      omega

theorem filterMap_readCell_map_id (l : List (String × Ptr)) (w : World)
    (hv : ∀ kv ∈ l, ∃ v, w.readCell kv.2 = some v ∧ v.id = kv.1) :
    (l.filterMap (fun kv => w.readCell kv.2)).map Task.id = l.map Prod.fst := by
  induction l with
  | nil => rfl
  | cons kv rest ih =>
      obtain ⟨v, hvv, hid⟩ := hv kv (List.mem_cons_self _ _)
      simp only [List.filterMap_cons, hvv, List.map_cons, hid,
        ih (fun kv hkv => hv kv (List.mem_cons_of_mem _ hkv))]

/-- C9.  For every N, every ambient clock and every choice of per-step
creation inputs, listing immediately after creating N tasks on a fresh
storage instance observes exactly N records, and their identifiers are
pairwise distinct. -/
theorem C9_list_after_n_creates (clock : Nat → Nat)
    (inputs : Nat → String × String × Nat) (N : Nat) :
    (memListValues (createN clock inputs N World.empty)).length = N ∧
    ((memListValues (createN clock inputs N World.empty)).map Task.id).Nodup := by
  obtain ⟨⟨hb, hr, hnd, hk⟩, hlen⟩ := createN_inv clock inputs N World.empty Inv_empty
  have hbptr : ∀ kv ∈ (createN clock inputs N World.empty).repoTasks,
      kv.2 < (createN clock inputs N World.empty).nextPtr := by
    intro kv hkv
    obtain ⟨v, hvv, hvid⟩ := hr kv hkv
    exact ptr_lt_of_readCell_some hb hvv
  have hlist : memListValues (createN clock inputs N World.empty)
      = (createN clock inputs N World.empty).repoTasks.filterMap
          (fun kv => (createN clock inputs N World.empty).readCell kv.2) := by
    unfold memListValues memList
    exact memListGo_filterMap _ _ hbptr
  have hids : (memListValues (createN clock inputs N World.empty)).map Task.id
      = (createN clock inputs N World.empty).repoTasks.map Prod.fst := by
    rw [hlist]
    exact filterMap_readCell_map_id _ _ hr
  constructor
  · have hlx := congrArg List.length hids
    simp only [List.length_map] at hlx
    rw [hlx, hlen]
    simp [World.empty]
  · rw [hids]
    exact hnd

/-- C6.  Code bug: a task is created even when its title is empty.  The
handler's request type declares the title required (a validation tag) and the
API specification lists title as required, but no validator is ever invoked
and the service performs no check, so an empty-title creation is accepted
with 201 and the empty-titled record is persisted — evaluated here at the
failing input (title "", description "d"). -/
theorem C6_empty_title_accepted :
    (handleCreateTask (fun i => i) World.empty (some ("", "d", 0))).1 = 201 ∧
    (svcCreateTask (fun i => i) World.empty "" "d" 0).1 = .ok 0 ∧
    (storedValue (svcCreateTask (fun i => i) World.empty "" "d" 0).2
      (uuidString 0)).map Task.title = some "" := by decide

/-- World with one created task (status pending), for the C8 scenario. -/
def c8Base : World := (svcCreateTask (fun i => i) World.empty "A" "d" 9).2

/-- An update request whose status value archived is outside the enumerated
set. -/
def c8Bad : Task :=
  { id := "", title := "B", description := "e", status := "archived",
    createdAt := 0, updatedAt := 0, dueDate := 0 }

/-- C8.  Code bug: the handler maps every service error of the update and
delete paths to 500.  Deleting a missing identifier makes the service report
NotFound yet the handler answers 500 (the claim and the API specification say
404); updating an existing task to the out-of-set status archived makes the
service report InvalidStatus yet the handler answers 500 (the claim says
400); updating a missing identifier also answers 500 instead of 404. -/
theorem C8_handler_maps_errors_to_500 :
    svcDeleteTask World.empty "x"
      = (.error (.notFound "task with ID x not found"), World.empty) ∧
    handleDeleteTask World.empty "x" = (500, World.empty) ∧
    (svcUpdateTask (fun i => i)
        (c8Base.allocCell { c8Bad with id := uuidString 0 }).2 2).1
      = .error (.invalidStatus "invalid status transition") ∧
    (handleUpdateTask (fun i => i) c8Base (uuidString 0) (some c8Bad)).1 = 500 ∧
    (handleUpdateTask (fun i => i) World.empty "y" (some c8Bad)).1 = 500 := by decide

end TaskTrack
